import Mathlib

/-!
Verification of the checkpoint-translation core of the `jam` repository
(`src/jam/flax/convnext/convnext.py`): the pattern-rule registry, the
ConvNeXt rule set, the tensor transform helpers, and the parameter-tree
reassembly that `load_from_torch_checkpoint` performs.

Tensors are embedded shallowly as a shape (list of dimension sizes)
together with a total valuation of multi-indices; the translation engine
never inspects tensor entries, so this is faithful for all bookkeeping
claims, and axis permutations act on the valuation exactly as
`numpy.transpose` acts on array entries.
-/

/-- An N-dimensional tensor: a shape and a valuation of multi-indices.
Only indices `idx` with `idx.length = shape.length` (componentwise in
range) are meaningful; the translation code never reads entries. -/
structure Tensor where
  shape : List Nat
  val : List Nat → Int

/-- Position of the first occurrence of `a` in a list of naturals
(used to invert an axes permutation). -/
def posOf (a : Nat) : List Nat → Nat
  | [] => 0
  | b :: l => if b = a then 0 else posOf a l + 1

/-- Model of `numpy.transpose(t, axes)`: defined exactly when `axes` has
one entry per dimension of `t` and is a permutation of the axis numbers
(otherwise numpy raises, modelled as `none`).  The result's `k`-th
dimension is `t`'s `axes[k]`-th dimension, and the entry at `idx` is
`t`'s entry at the index `j` with `j[axes[k]] = idx[k]`. -/
def npTranspose (t : Tensor) (axes : List Nat) : Option Tensor :=
  if axes.length = t.shape.length ∧ ∀ i ∈ List.range axes.length, i ∈ axes then
    some ⟨axes.map (fun a => t.shape.getD a 0),
          fun idx => t.val ((List.range axes.length).map (fun p => idx.getD (posOf p axes) 0))⟩
  else none

/-- Model of `numpy` row-major index unraveling: the multi-index of flat
position `i` in an array of the given shape. -/
def unravel : List Nat → Nat → List Nat
  | [], _ => []
  | _ :: rest, i => i / rest.prod :: unravel rest (i % rest.prod)

/-- Model of `val.reshape(-1)`: flatten to a rank-1 tensor whose length is
the product of the dimensions (always succeeds in numpy). -/
def reshapeFlat (t : Tensor) : Tensor :=
  ⟨[t.shape.prod], fun idx => t.val (unravel t.shape (idx.getD 0 0))⟩

/-- `transpose_conv_weights` from `convnext.py`: `np.transpose(w, [2, 3, 1, 0])`. -/
def transpose_conv_weights (w : Tensor) : Option Tensor :=
  npTranspose w [2, 3, 1, 0]

/-- The dense-kernel transpose `np.transpose(val, [1, 0])` applied inline by
`cn_block_block_dense` and `classifier_dense` in `convnext.py`. -/
def transpose_dense_kernel (w : Tensor) : Option Tensor :=
  npTranspose w [1, 0]

/-- Two tensors are equal as arrays: same shape and same entries at every
index of the right length. -/
def Tensor.equiv (t u : Tensor) : Prop :=
  t.shape = u.shape ∧ ∀ idx : List Nat, idx.length = t.shape.length → t.val idx = u.val idx

/-- Model of Python `int(s)` on the digit strings produced by the regex
groups `(\d+)`, `(1|3|5|7)`, `(2|4|6)` (the only strings the handlers
convert). -/
def parseNat (s : String) : Nat :=
  s.data.foldl (fun n c => n * 10 + (c.toNat - 48)) 0

/-- The stage-index remap `(int(stage) - 1) // 2` shared by the ConvNeXt
block handlers (`cn_block_layer_scale`, `cn_block_block_conv`,
`cn_block_block_dense`, `cn_block_block_norm`); Python `//` is floor
division, hence `Int.fdiv`. -/
def stage_remap (stage : String) : Int :=
  (Int.ofNat (parseNat stage) - 1).fdiv 2

/-- Model of a Python dict lookup `{...}[k]` over string keys: `none`
models the `KeyError` raised on a value outside the vocabulary. -/
def lookupStr : List (String × String) → String → Option String
  | [], _ => none
  | (k, v) :: rest, key => if k = key then some v else lookupStr rest key

/-- Handler `initial_conv` (rule `features.0.0.(weight|bias)`). -/
def initial_conv (_key : String) (val : Tensor) : List String → Option (String × Tensor)
  | [weight_or_bias] => do
    let newname ← lookupStr [("weight", "kernel"), ("bias", "bias")] weight_or_bias
    let newkey := "stem/layers_0/" ++ newname
    if newname = "kernel" then
      let v ← transpose_conv_weights val
      pure (newkey, v)
    else
      pure (newkey, val)
  | _ => none

/-- Handler `initial_norm` (rule `features.0.1.(weight|bias)`). -/
def initial_norm (_key : String) (val : Tensor) : List String → Option (String × Tensor)
  | [weight_or_bias] => do
    let newname ← lookupStr [("weight", "scale"), ("bias", "bias")] weight_or_bias
    pure ("stem/layers_1/" ++ newname, val)
  | _ => none

/-- Handler `cn_block_layer_scale` (rule `features.(1|3|5|7).(\d+).layer_scale`). -/
def cn_block_layer_scale (_key : String) (val : Tensor) : List String → Option (String × Tensor)
  | [stage, block_id] =>
    pure ("stages_" ++ toString (stage_remap stage) ++ "/CNBlock_" ++ block_id ++ "/layer_scale",
          reshapeFlat val)
  | _ => none

/-- Handler `cn_block_block_conv` (rule `features.(1|3|5|7).(\d+).block.0.(weight|bias)`). -/
def cn_block_block_conv (_key : String) (val : Tensor) : List String → Option (String × Tensor)
  | [stage, block, weight_or_bias] => do
    let newname ← lookupStr [("weight", "kernel"), ("bias", "bias")] weight_or_bias
    let newkey := "stages_" ++ toString (stage_remap stage) ++ "/CNBlock_" ++ block
      ++ "/block/layers_0/" ++ newname
    if weight_or_bias = "weight" then
      let v ← transpose_conv_weights val
      pure (newkey, v)
    else
      pure (newkey, val)
  | _ => none

/-- Handler `cn_block_block_dense` (rule `features.(1|3|5|7).(\d+).block.(3|5).(weight|bias)`). -/
def cn_block_block_dense (_key : String) (val : Tensor) : List String → Option (String × Tensor)
  | [stage, block, dense_idx, weight_or_bias] => do
    let new_idx ← (match parseNat dense_idx with
      | 3 => some 2
      | 5 => some 4
      | _ => none : Option Nat)
    let newname ← lookupStr [("weight", "kernel"), ("bias", "bias")] weight_or_bias
    let newkey := "stages_" ++ toString (stage_remap stage) ++ "/CNBlock_" ++ block
      ++ "/block/layers_" ++ toString new_idx ++ "/" ++ newname
    if weight_or_bias = "weight" then
      let v ← transpose_dense_kernel val
      pure (newkey, v)
    else
      pure (newkey, val)
  | _ => none

/-- Handler `cn_block_block_norm` (rule `features.(1|3|5|7).(\d+).block.2.(weight|bias)`). -/
def cn_block_block_norm (_key : String) (val : Tensor) : List String → Option (String × Tensor)
  | [stage, block, weight_or_bias] => do
    let newname ← lookupStr [("weight", "scale"), ("bias", "bias")] weight_or_bias
    pure ("stages_" ++ toString (stage_remap stage) ++ "/CNBlock_" ++ block
      ++ "/block/layers_1/" ++ newname, val)
  | _ => none

/-- Handler `block_projection_norm` (rule `features.(2|4|6).0.(weight|bias)`);
`int(layer) // 2` is Python floor division. -/
def block_projection_norm (_key : String) (val : Tensor) : List String → Option (String × Tensor)
  | [layer, weight_or_bias] => do
    let newname ← lookupStr [("weight", "scale"), ("bias", "bias")] weight_or_bias
    pure ("stages_" ++ toString ((Int.ofNat (parseNat layer)).fdiv 2) ++ "/LayerNorm_0/" ++ newname,
          val)
  | _ => none

/-- Handler `block_projection_conv` (rule `features.(2|4|6).1.(weight|bias)`). -/
def block_projection_conv (_key : String) (val : Tensor) : List String → Option (String × Tensor)
  | [layer, weight_or_bias] => do
    let newname ← lookupStr [("weight", "kernel"), ("bias", "bias")] weight_or_bias
    let newkey := "stages_" ++ toString ((Int.ofNat (parseNat layer)).fdiv 2) ++ "/Conv_0/" ++ newname
    if weight_or_bias = "weight" then
      let v ← transpose_conv_weights val
      pure (newkey, v)
    else
      pure (newkey, val)
  | _ => none

/-- Handler `classifier_norm` (rule `classifier.0.(weight|bias)`). -/
def classifier_norm (_key : String) (val : Tensor) : List String → Option (String × Tensor)
  | [weight_or_bias] => do
    let newname ← lookupStr [("weight", "scale"), ("bias", "bias")] weight_or_bias
    pure ("classifier/layers_0/" ++ newname, val)
  | _ => none

/-- Handler `classifier_dense` (rule `classifier.2.(weight|bias)`). -/
def classifier_dense (_key : String) (val : Tensor) : List String → Option (String × Tensor)
  | [weight_or_bias] => do
    let newname ← lookupStr [("weight", "kernel"), ("bias", "bias")] weight_or_bias
    let newkey := "classifier/layers_2/" ++ newname
    if weight_or_bias = "weight" then
      let v ← transpose_dense_kernel val
      pure (newkey, v)
    else
      pure (newkey, val)
  | _ => none

/-- Modelled from the spec: the pattern language of `CheckpointTranslator`
(`jam.utils.checkpoint_utils`, not part of the repository sources).  The
registered patterns use only literal characters, the any-character
metacharacter `.` (the source patterns leave dots unescaped), the
alternation group `(x|y)`, and the group `(\d+)`; `digits1` is `\d+`. -/
inductive Regex where
  | epsilon
  | char (c : Char)
  | dot
  | digits1
  | seq (a b : Regex)
  | alt (a b : Regex)
  | group (r : Regex)

/-- Modelled from the spec: backtracking matcher.  `matchPre r s` lists every
way `r` can match a prefix of `s`, as (remaining suffix, captured groups in
left-to-right order), in Python `re` backtracking priority (leftmost
alternative first, `+` greedy). -/
def Regex.matchPre : Regex → List Char → List (List Char × List String)
  | .epsilon, s => [(s, [])]
  | .char c, s =>
    match s with
    | [] => []
    | x :: xs => if x = c then [(xs, [])] else []
  | .dot, s =>
    match s with
    | [] => []
    | _ :: xs => [(xs, [])]
  | .digits1, s =>
    let run := (s.takeWhile Char.isDigit).length
    (List.range run).reverse.map (fun k => (s.drop (k + 1), []))
  | .seq a b, s =>
    (a.matchPre s).flatMap (fun p => (b.matchPre p.1).map (fun q => (q.1, p.2 ++ q.2)))
  | .alt a b, s => a.matchPre s ++ b.matchPre s
  | .group r, s =>
    (r.matchPre s).map (fun p => (p.1, String.mk (s.take (s.length - p.1.length)) :: p.2))

/-- Modelled from the spec: `matches(key)` is anchored at both ends — a rule
applies iff the whole key is consumed.  On success the captured groups are
returned as strings in left-to-right order. -/
def Regex.fullmatch (r : Regex) (key : String) : Option (List String) :=
  (((r.matchPre key.data).filter (fun p => p.1.isEmpty)).head?).map (fun p => p.2)

/-- Builds the regex of a pattern fragment in which `.` is the unescaped
any-character metacharacter and every other character is a literal
(exactly how the `convnext.py` pattern strings read under Python `re`). -/
def Regex.ofChars : List Char → Regex
  | [] => .epsilon
  | c :: cs => .seq (if c = '.' then .dot else .char c) (ofChars cs)

/-- Pattern fragment from a string, `.` meaning any character. -/
def rs (s : String) : Regex := Regex.ofChars s.data

/-- Pattern fragment from a string with every character literal (used for
the spec's escaped-dots scenario pattern). -/
def rlit (s : String) : Regex :=
  s.data.foldr (fun c r => Regex.seq (Regex.char c) r) Regex.epsilon

/-- Sequencing of a list of pattern fragments. -/
def seqList : List Regex → Regex
  | [] => .epsilon
  | r :: rest => .seq r (seqList rest)

/-- The group `(weight|bias)`. -/
def grpWB : Regex := .group (.alt (rs "weight") (rs "bias"))

/-- The group `(1|3|5|7)`. -/
def grp1357 : Regex := .group (.alt (rs "1") (.alt (rs "3") (.alt (rs "5") (rs "7"))))

/-- The group `(2|4|6)`. -/
def grp246 : Regex := .group (.alt (rs "2") (.alt (rs "4") (rs "6")))

/-- Pattern `features.0.0.(weight|bias)` registered for `initial_conv`. -/
def pat_initial_conv : Regex := seqList [rs "features.0.0.", grpWB]

/-- Pattern `features.0.1.(weight|bias)` registered for `initial_norm`. -/
def pat_initial_norm : Regex := seqList [rs "features.0.1.", grpWB]

/-- Pattern `features.(1|3|5|7).(\d+).layer_scale`. -/
def pat_layer_scale : Regex :=
  seqList [rs "features.", grp1357, rs ".", .group .digits1, rs ".layer_scale"]

/-- Pattern `features.(1|3|5|7).(\d+).block.0.(weight|bias)`. -/
def pat_block_conv : Regex :=
  seqList [rs "features.", grp1357, rs ".", .group .digits1, rs ".block.0.", grpWB]

/-- Pattern `features.(1|3|5|7).(\d+).block.(3|5).(weight|bias)`. -/
def pat_block_dense : Regex :=
  seqList [rs "features.", grp1357, rs ".", .group .digits1, rs ".block.",
    .group (.alt (rs "3") (rs "5")), rs ".", grpWB]

/-- Pattern `features.(1|3|5|7).(\d+).block.2.(weight|bias)`. -/
def pat_block_norm : Regex :=
  seqList [rs "features.", grp1357, rs ".", .group .digits1, rs ".block.2.", grpWB]

/-- Pattern `features.(2|4|6).0.(weight|bias)`. -/
def pat_projection_norm : Regex := seqList [rs "features.", grp246, rs ".0.", grpWB]

/-- Pattern `features.(2|4|6).1.(weight|bias)`. -/
def pat_projection_conv : Regex := seqList [rs "features.", grp246, rs ".1.", grpWB]

/-- Pattern `classifier.0.(weight|bias)`. -/
def pat_classifier_norm : Regex := seqList [rs "classifier.0.", grpWB]

/-- Pattern `classifier.2.(weight|bias)`. -/
def pat_classifier_dense : Regex := seqList [rs "classifier.2.", grpWB]

/-- Modelled from the spec: a PatternRule of the registry — a compiled
pattern plus a handler taking the raw key, the tensor, and the captured
groups; `none` models the handler raising (vocabulary `KeyError` or a
transform shape error). -/
structure Rule where
  pattern : Regex
  handler : String → Tensor → List String → Option (String × Tensor)

/-- The ConvNeXt rule set, in the registration (decorator) order of
`convnext.py`. -/
def convnextRules : List Rule :=
  [⟨pat_initial_conv, initial_conv⟩,
   ⟨pat_initial_norm, initial_norm⟩,
   ⟨pat_layer_scale, cn_block_layer_scale⟩,
   ⟨pat_block_conv, cn_block_block_conv⟩,
   ⟨pat_block_dense, cn_block_block_dense⟩,
   ⟨pat_block_norm, cn_block_block_norm⟩,
   ⟨pat_projection_norm, block_projection_norm⟩,
   ⟨pat_projection_conv, block_projection_conv⟩,
   ⟨pat_classifier_norm, classifier_norm⟩,
   ⟨pat_classifier_dense, classifier_dense⟩]

/-- Modelled from the spec: the error taxonomy of `apply`/`unflatten`
(§7 of the design: UnmatchedKeyError, AmbiguousVocabularyError and
ShapeError surface from a handler, DuplicateTargetKeyError,
StructuralConflictError). -/
inductive TranslateError where
  | unmatchedKey (key : String)
  | handlerFailure (key : String)
  | duplicateTargetKey (key : String)
  | structuralConflict
deriving DecidableEq

/-- Modelled from the spec: first-match-wins dispatch — the first rule in
registration order whose pattern fullmatches the key, with its captures. -/
def firstMatchingRule : List Rule → String → Option (Rule × List String)
  | [], _ => none
  | r :: rest, key =>
    match r.pattern.fullmatch key with
    | some gs => some (r, gs)
    | none => firstMatchingRule rest key

/-- Modelled from the spec: translation of a single entry — dispatch to the
first matching rule and run its handler on the raw key, the tensor and the
captured groups. -/
def dispatchKey (rules : List Rule) (key : String) (v : Tensor) :
    Except TranslateError (String × Tensor) :=
  match firstMatchingRule rules key with
  | none => .error (.unmatchedKey key)
  | some (r, gs) =>
    match r.handler key v gs with
    | none => .error (.handlerFailure key)
    | some res => .ok res

/-- Modelled from the spec: the entry loop of `apply`, carrying the
already-translated entries; a translated key colliding with an earlier
target key raises DuplicateTargetKeyError. -/
def applyGo (rules : List Rule) (acc : List (String × Tensor)) :
    List (String × Tensor) → Except TranslateError (List (String × Tensor))
  | [] => .ok acc
  | (k, v) :: rest =>
    match dispatchKey rules k v with
    | .error e => .error e
    | .ok (nk, nv) =>
      if nk ∈ acc.map Prod.fst then .error (.duplicateTargetKey nk)
      else applyGo rules (acc ++ [(nk, nv)]) rest

/-- Modelled from the spec: `Registry.apply` — translate every entry of the
flat source mapping (in iteration order), first-match-wins per key. -/
def applyRules (rules : List Rule) (entries : List (String × Tensor)) :
    Except TranslateError (List (String × Tensor)) :=
  applyGo rules [] entries

/-- Number of registered rules whose pattern fullmatches a key (used to
state the spec's "matches exactly one registered pattern" hypothesis). -/
def countMatchingRules (rules : List Rule) (key : String) : Nat :=
  (rules.filter (fun r => (r.pattern.fullmatch key).isSome)).length

/-- Modelled from the spec: a ParameterTree — a nested mapping from path
segments to subtrees or leaf tensors (`flax.traverse_util.unflatten_dict`
is not part of the repository sources; children are kept in insertion
order, as a Python dict does). -/
inductive Ptree where
  | leaf (t : Tensor)
  | node (children : List (String × Ptree))

/-- Lookup of a child by segment name in a children list. -/
def lookupChild : List (String × Ptree) → String → Option Ptree
  | [], _ => none
  | (k, t) :: rest, key => if k = key then some t else lookupChild rest key

/-- Replacement of the first child with the given segment name (the
position and the other children are kept, as in a Python dict update). -/
def replaceChild : List (String × Ptree) → String → Ptree → List (String × Ptree)
  | [], _, _ => []
  | (k, t) :: rest, key, u =>
    if k = key then (k, u) :: rest else (k, t) :: replaceChild rest key u

/-- Splits a list of characters at every occurrence of `sep` (Python
`str.split` with a one-character separator). -/
def splitChars (sep : Char) : List Char → List (List Char)
  | [] => [[]]
  | c :: rest =>
    match splitChars sep rest with
    | [] => [[c]]
    | h :: t => if c = sep then [] :: h :: t else (c :: h) :: t

/-- Python `key.split(sep)` for a one-character separator (the engine is
used with separator `"/"`). -/
def splitOnChar (sep : Char) (s : String) : List String :=
  (splitChars sep s.data).map (fun l => String.mk l)

/-- Modelled from the spec: insertion of one tensor at a segment path into
a children list — walk/create nested mappings for all but the last
segment, assign the tensor at the last segment.  A segment that already
holds a leaf being used as an interior node, an interior node being
assigned a tensor, or a reassigned full path (ruled out for `apply`
output, whose target keys are unique) is a structural conflict. -/
def insertAt (cs : List (String × Ptree)) : List String → Tensor →
    Except TranslateError (List (String × Ptree))
  | [], _ => .error .structuralConflict
  | [seg], v =>
    match lookupChild cs seg with
    | none => .ok (cs ++ [(seg, .leaf v)])
    | some _ => .error .structuralConflict
  | seg :: seg' :: rest, v =>
    match lookupChild cs seg with
    | none => do
      let sub ← insertAt [] (seg' :: rest) v
      pure (cs ++ [(seg, .node sub)])
    | some (.node sub) => do
      let sub' ← insertAt sub (seg' :: rest) v
      pure (replaceChild cs seg (.node sub'))
    | some (.leaf _) => .error .structuralConflict

/-- Modelled from the spec: the entry loop of `unflatten`, keyed splitting
each target key on the separator and inserting into the tree built so far. -/
def unflattenGo (sep : Char) (cs : List (String × Ptree)) :
    List (String × Tensor) → Except TranslateError (List (String × Ptree))
  | [] => .ok cs
  | (k, v) :: rest => do
    let cs' ← insertAt cs (splitOnChar sep k) v
    unflattenGo sep cs' rest

/-- Modelled from the spec: `unflatten(mapping, separator)` — reassemble
the flat target mapping into a nested ParameterTree. -/
def unflatten (entries : List (String × Tensor)) (sep : Char) : Except TranslateError Ptree :=
  match unflattenGo sep [] entries with
  | .ok cs => .ok (.node cs)
  | .error e => .error e

/-- Number of leaf tensors of a ParameterTree. -/
def Ptree.leafCount : Ptree → Nat
  | .leaf _ => 1
  | .node cs => go cs
where go : List (String × Ptree) → Nat
  | [] => 0
  | (_, t) :: rest => t.leafCount + go rest

/-- Lexicographic order on the characters of two strings (the built-in
`String` order is not kernel-reducible, so the canonical form below uses
this one). -/
def charsLt : List Char → List Char → Bool
  | [], [] => false
  | [], _ :: _ => true
  | _ :: _, [] => false
  | a :: as, b :: bs =>
    if a.toNat < b.toNat then true
    else if a.toNat = b.toNat then charsLt as bs
    else false

/-- String order used to canonicalize children lists. -/
def strLt (a b : String) : Bool := charsLt a.data b.data

/-- Ordered insertion of a child into a children list sorted by key. -/
def insertByKey (p : String × Ptree) : List (String × Ptree) → List (String × Ptree)
  | [] => [p]
  | q :: rest => if strLt p.1 q.1 then p :: q :: rest else q :: insertByKey p rest

/-- Sorts a children list by key. -/
def sortByKey : List (String × Ptree) → List (String × Ptree)
  | [] => []
  | p :: rest => insertByKey p (sortByKey rest)

/-- Canonical form of a ParameterTree: children sorted by key at every
level.  Two trees are equal as nested mappings (Python dict equality,
which ignores insertion order) iff their canonical forms are equal. -/
def Ptree.canon : Ptree → Ptree
  | .leaf t => .leaf t
  | .node cs => .node (sortByKey (go cs))
where go : List (String × Ptree) → List (String × Ptree)
  | [] => []
  | (k, t) :: rest => (k, t.canon) :: go rest

/-- `load_from_torch_checkpoint` from `convnext.py`: run the ConvNeXt
registry's `apply` on the state dict (`as_numpy` is an identity on the
opaque tensors of this embedding, and the dict comprehension on line 321
copies the mapping), unflatten the translated mapping on `"/"`, and wrap
the resulting tree as the value of the single top-level key `"params"`. -/
def load_from_torch_checkpoint (state_dict : List (String × Tensor)) :
    Except TranslateError Ptree :=
  match applyRules convnextRules state_dict with
  | .error e => .error e
  | .ok converted =>
    match unflatten converted '/' with
    | .error e => .error e
    | .ok tree => .ok (.node [("params", tree)])

/-- A successful `applyGo` run produces one output entry per input entry on
top of the accumulator. -/
theorem applyGo_ok_length (rules : List Rule) :
    ∀ (entries : List (String × Tensor)) (acc out : List (String × Tensor)),
      applyGo rules acc entries = .ok out → out.length = acc.length + entries.length := by
  intro entries
  induction entries with
  | nil =>
    intro acc out h
    simp only [applyGo] at h
    cases h
    simp
  | cons e rest ih =>
    intro acc out h
    obtain ⟨k, v⟩ := e
    simp only [applyGo] at h
    split at h
    · cases h
    · split at h
      · cases h
      · have := ih _ _ h
        simp at this ⊢
        omega

/-- A successful `applyGo` run keeps the target keys free of duplicates. -/
theorem applyGo_ok_nodup (rules : List Rule) :
    ∀ (entries : List (String × Tensor)) (acc out : List (String × Tensor)),
      applyGo rules acc entries = .ok out → (acc.map Prod.fst).Nodup →
      (out.map Prod.fst).Nodup := by
  intro entries
  induction entries with
  | nil =>
    intro acc out h hnd
    simp only [applyGo] at h
    cases h
    exact hnd
  | cons e rest ih =>
    intro acc out h hnd
    obtain ⟨k, v⟩ := e
    simp only [applyGo] at h
    split at h
    · cases h
    · rename_i nk nv _
      split at h
      · cases h
      · rename_i hm
        refine ih _ _ h ?_
        simp [List.nodup_append, hnd, hm]

/-- A successful `applyGo` run means every input key had a matching rule. -/
theorem applyGo_ok_all_matched (rules : List Rule) :
    ∀ (entries : List (String × Tensor)) (acc out : List (String × Tensor)),
      applyGo rules acc entries = .ok out →
      ∀ k ∈ entries.map Prod.fst, (firstMatchingRule rules k).isSome := by
  intro entries
  induction entries with
  | nil => intro acc out _ k hk; simp at hk
  | cons e rest ih =>
    intro acc out h k hk
    obtain ⟨k', v⟩ := e
    simp only [applyGo] at h
    split at h
    · cases h
    · rename_i nk nv hd
      split at h
      · cases h
      · simp only [List.map_cons, List.mem_cons] at hk
        rcases hk with rfl | hk
        · unfold dispatchKey at hd
          cases hf : firstMatchingRule rules k with
          | none => rw [hf] at hd; cases hd
          | some p => simp [hf]
        · exact ih _ _ h k hk

/-- Leaf counting distributes over children-list concatenation. -/
theorem leafCount_go_append (l1 l2 : List (String × Ptree)) :
    Ptree.leafCount.go (l1 ++ l2) = Ptree.leafCount.go l1 + Ptree.leafCount.go l2 := by
  induction l1 with
  | nil => simp [Ptree.leafCount.go]
  | cons p rest ih =>
    obtain ⟨k, t⟩ := p
    simp [Ptree.leafCount.go, ih]
    omega

/-- A found child splits its children list, and replacement targets
exactly that split. -/
theorem lookupChild_decomp (key : String) (t : Ptree) :
    ∀ cs : List (String × Ptree), lookupChild cs key = some t →
      ∃ pre post, cs = pre ++ (key, t) :: post ∧
        ∀ u, replaceChild cs key u = pre ++ (key, u) :: post := by
  intro cs
  induction cs with
  | nil => intro h; cases h
  | cons p rest ih =>
    intro h
    obtain ⟨k, t'⟩ := p
    by_cases hk : k = key
    · subst hk
      simp only [lookupChild, if_pos rfl] at h
      cases h
      exact ⟨[], rest, rfl, fun u => by simp [replaceChild]⟩
    · simp only [lookupChild, if_neg hk] at h
      obtain ⟨pre, post, hcs, hrep⟩ := ih h
      exact ⟨(k, t') :: pre, post, by rw [hcs]; rfl,
        fun u => by simp [replaceChild, if_neg hk, hrep u]⟩

/-- A successful insertion adds exactly one leaf to the tree. -/
theorem insertAt_ok_leafCount :
    ∀ (path : List String) (cs : List (String × Ptree)) (v : Tensor)
      (cs' : List (String × Ptree)), insertAt cs path v = .ok cs' →
      Ptree.leafCount.go cs' = Ptree.leafCount.go cs + 1 := by
  intro path
  induction path with
  | nil => intro cs v cs' h; cases h
  | cons seg tail ih =>
    intro cs v cs' h
    cases tail with
    | nil =>
      simp only [insertAt] at h
      split at h
      · cases h
        simp [leafCount_go_append, Ptree.leafCount.go, Ptree.leafCount]
      · cases h
    | cons seg' rest =>
      simp only [insertAt] at h
      split at h
      · cases hsub : insertAt [] (seg' :: rest) v with
        | error e => rw [hsub] at h; cases h
        | ok sub =>
          rw [hsub] at h
          simp only [Option.bind, bind, Except.bind, pure, Except.pure] at h
          cases h
          have hone := ih [] v sub hsub
          simp [leafCount_go_append, Ptree.leafCount.go, Ptree.leafCount] at hone ⊢
          omega
      · rename_i sub hlook
        cases hsub : insertAt sub (seg' :: rest) v with
        | error e => rw [hsub] at h; cases h
        | ok sub' =>
          rw [hsub] at h
          simp only [Option.bind, bind, Except.bind, pure, Except.pure] at h
          cases h
          obtain ⟨pre, post, hcs, hrep⟩ := lookupChild_decomp seg (.node sub) cs hlook
          have hone := ih sub v sub' hsub
          rw [hcs, leafCount_go_append] at *
          rw [hrep (.node sub')]
          simp [leafCount_go_append, Ptree.leafCount.go, Ptree.leafCount] at *
          omega
      · cases h

/-- A successful `unflattenGo` run adds exactly one leaf per entry. -/
theorem unflattenGo_ok_leafCount (sep : Char) :
    ∀ (entries : List (String × Tensor)) (cs out : List (String × Ptree)),
      unflattenGo sep cs entries = .ok out →
      Ptree.leafCount.go out = Ptree.leafCount.go cs + entries.length := by
  intro entries
  induction entries with
  | nil =>
    intro cs out h
    simp only [unflattenGo] at h
    cases h
    simp
  | cons e rest ih =>
    intro cs out h
    obtain ⟨k, v⟩ := e
    simp only [unflattenGo] at h
    cases hin : insertAt cs (splitOnChar sep k) v with
    | error er => rw [hin] at h; cases h
    | ok cs1 =>
      rw [hin] at h
      simp only [bind, Except.bind] at h
      have h1 := insertAt_ok_leafCount (splitOnChar sep k) cs v cs1 hin
      have h2 := ih _ _ h
      simp only [List.length_cons]
      omega

/-- A tensor of rank 4 (or rank 2) can be transposed by a length-4
(resp. length-2) axes permutation; gives the success of the conv/dense
kernel transforms under the documented rank. -/
theorem npTranspose_rank_ok (t : Tensor) (axes : List Nat)
    (hlen : axes.length = t.shape.length)
    (hperm : ∀ i ∈ List.range axes.length, i ∈ axes) :
    ∃ u, npTranspose t axes = some u := by
  unfold npTranspose
  rw [if_pos ⟨hlen, hperm⟩]
  exact ⟨_, rfl⟩

/-- C6: applying the convolution-kernel permutation `[2, 3, 1, 0]`
(`transpose_conv_weights`) and then the reverse permutation `[3, 2, 0, 1]`
restores the original tensor and its shape, for every 4-dimensional tensor. -/
theorem transpose_conv_weights_roundtrip (t : Tensor) (h : t.shape.length = 4) :
    ∃ u v, transpose_conv_weights t = some u ∧ npTranspose u [3, 2, 0, 1] = some v ∧
      v.shape = t.shape ∧ ∀ i0 i1 i2 i3 : Nat, v.val [i0, i1, i2, i3] = t.val [i0, i1, i2, i3] := by
  obtain ⟨sh, f⟩ := t
  simp only at h
  rcases sh with _ | ⟨a, _ | ⟨b, _ | ⟨c, _ | ⟨d, _ | ⟨e, tl⟩⟩⟩⟩⟩ <;> simp at h
  exact ⟨_, _, rfl, rfl, rfl, fun i0 i1 i2 i3 => rfl⟩

/-- Witness for C6 at a concrete rank-4 tensor. -/
theorem transpose_conv_weights_roundtrip_witness :
    (Tensor.mk [2, 3, 4, 5] (fun idx => (idx.sum : Int))).shape.length = 4 ∧
    (∃ u v, transpose_conv_weights (Tensor.mk [2, 3, 4, 5] (fun idx => (idx.sum : Int))) = some u ∧
      npTranspose u [3, 2, 0, 1] = some v ∧
      v.shape = (Tensor.mk [2, 3, 4, 5] (fun idx => (idx.sum : Int))).shape ∧
      ∀ i0 i1 i2 i3 : Nat, v.val [i0, i1, i2, i3]
        = (Tensor.mk [2, 3, 4, 5] (fun idx => (idx.sum : Int))).val [i0, i1, i2, i3]) :=
  ⟨rfl, transpose_conv_weights_roundtrip _ rfl⟩

/-- C8: the dense-kernel transpose (permutation `[1, 0]`) is involutive:
applying it twice to any 2-dimensional tensor returns the original tensor. -/
theorem transpose_dense_kernel_involutive (t : Tensor) (h : t.shape.length = 2) :
    ∃ u v, transpose_dense_kernel t = some u ∧ transpose_dense_kernel u = some v ∧
      v.shape = t.shape ∧ ∀ i0 i1 : Nat, v.val [i0, i1] = t.val [i0, i1] := by
  obtain ⟨sh, f⟩ := t
  simp only at h
  rcases sh with _ | ⟨a, _ | ⟨b, _ | ⟨c, tl⟩⟩⟩ <;> simp at h
  exact ⟨_, _, rfl, rfl, rfl, fun i0 i1 => rfl⟩

/-- Witness for C8 at a concrete rank-2 tensor. -/
theorem transpose_dense_kernel_involutive_witness :
    (Tensor.mk [3, 7] (fun idx => (idx.sum : Int))).shape.length = 2 ∧
    (∃ u v, transpose_dense_kernel (Tensor.mk [3, 7] (fun idx => (idx.sum : Int))) = some u ∧
      transpose_dense_kernel u = some v ∧
      v.shape = (Tensor.mk [3, 7] (fun idx => (idx.sum : Int))).shape ∧
      ∀ i0 i1 : Nat, v.val [i0, i1] = (Tensor.mk [3, 7] (fun idx => (idx.sum : Int))).val [i0, i1]) :=
  ⟨rfl, transpose_dense_kernel_involutive _ rfl⟩

/-- C9: the convolution-kernel transform (permutation `[2, 3, 1, 0]`) fails
(numpy raises, modelled as `none`) on every tensor whose rank is not 4; it
never returns a result on such input. -/
theorem transpose_conv_weights_rank_error (t : Tensor) (h : t.shape.length ≠ 4) :
    transpose_conv_weights t = none := by
  unfold transpose_conv_weights npTranspose
  rw [if_neg]
  rintro ⟨h1, -⟩
  simp at h1
  exact h h1.symm

/-- Witness for C9 at a concrete rank-2 tensor. -/
theorem transpose_conv_weights_rank_error_witness :
    (Tensor.mk [2, 3] (fun _ => 0)).shape.length ≠ 4 ∧
    transpose_conv_weights (Tensor.mk [2, 3] (fun _ => 0)) = none :=
  ⟨by decide, transpose_conv_weights_rank_error _ (by decide)⟩

/-- C7: the stage-index remap of the ConvNeXt block rules is
`(int(stage) - 1) // 2` by integer floor division, sending the source stage
indices 1, 3, 5, 7 to 0, 1, 2, 3; consequently `cn_block_layer_scale`
rewrites a stage-3 key into a `stages_1` target key. -/
theorem stage_remap_floor_div_values :
    stage_remap "1" = 0 ∧ stage_remap "3" = 1 ∧ stage_remap "5" = 2 ∧ stage_remap "7" = 3 ∧
    ∀ v : Tensor, cn_block_layer_scale "features.3.0.layer_scale" v ["3", "0"]
      = some ("stages_1/CNBlock_0/layer_scale", reshapeFlat v) :=
  ⟨by decide, by decide, by decide, by decide, fun v => rfl⟩

/-- C1 (amended): whenever `apply` succeeds on a flat input mapping and
`unflatten` succeeds on its output, the resulting ParameterTree has exactly
one leaf tensor per input entry — no input tensor is dropped and none is
duplicated.  (The success hypotheses are forced: a key can match exactly
one registered pattern and the pipeline still raise, see the
counterexample below.) -/
theorem apply_unflatten_one_leaf_per_entry (rules : List Rule)
    (entries out : List (String × Tensor)) (tree : Ptree)
    (happly : applyRules rules entries = .ok out)
    (hun : unflatten out '/' = .ok tree) :
    tree.leafCount = entries.length := by
  have hlen := applyGo_ok_length rules entries [] out happly
  simp only [List.length_nil, Nat.zero_add] at hlen
  unfold unflatten at hun
  cases hgo : unflattenGo '/' [] out with
  | error e => rw [hgo] at hun; cases hun
  | ok cs =>
    rw [hgo] at hun
    cases hun
    have := unflattenGo_ok_leafCount '/' out [] cs hgo
    simp only [Ptree.leafCount.go] at this
    simp only [Ptree.leafCount]
    omega

/-- Counterexample to C1 as stated: in the input below the only key
matches exactly one registered ConvNeXt pattern, yet `apply` raises (the
handler's conv-kernel transform rejects the rank-2 tensor), so running
`apply` and then `unflatten` yields no ParameterTree at all. -/
theorem apply_unflatten_matched_key_failure :
    countMatchingRules convnextRules "features.0.0.weight" = 1 ∧
    applyRules convnextRules [("features.0.0.weight", Tensor.mk [2, 3] (fun _ => 0))]
      = .error (.handlerFailure "features.0.0.weight") :=
  ⟨rfl, rfl⟩

/-- Witness for (amended) C1 on a concrete one-entry checkpoint. -/
theorem apply_unflatten_one_leaf_per_entry_witness :
    applyRules convnextRules [("features.0.1.bias", Tensor.mk [5] (fun _ => 0))]
      = .ok [("stem/layers_1/bias", Tensor.mk [5] (fun _ => 0))] ∧
    unflatten [("stem/layers_1/bias", Tensor.mk [5] (fun _ => 0))] '/'
      = .ok (.node [("stem", .node [("layers_1", .node [("bias",
          .leaf (Tensor.mk [5] (fun _ => 0)))])])]) ∧
    Ptree.leafCount (.node [("stem", .node [("layers_1", .node [("bias",
        .leaf (Tensor.mk [5] (fun _ => 0)))])])]) = 1 :=
  ⟨rfl, rfl,
    apply_unflatten_one_leaf_per_entry convnextRules
      [("features.0.1.bias", Tensor.mk [5] (fun _ => 0))]
      [("stem/layers_1/bias", Tensor.mk [5] (fun _ => 0))]
      (.node [("stem", .node [("layers_1", .node [("bias",
        .leaf (Tensor.mk [5] (fun _ => 0)))])])]) rfl rfl⟩

/-- Dispatch skips any list of non-matching rules and selects the next
rule, with its captures. -/
theorem firstMatchingRule_append (post : List Rule) (r : Rule) (key : String) (gs : List String)
    (hr : r.pattern.fullmatch key = some gs) :
    ∀ pre : List Rule, (∀ r' ∈ pre, r'.pattern.fullmatch key = none) →
      firstMatchingRule (pre ++ r :: post) key = some (r, gs) := by
  intro pre
  induction pre with
  | nil => intro _; simp [firstMatchingRule, hr]
  | cons p pre' ih =>
    intro hpre
    have hp := hpre p (List.mem_cons_self p pre')
    simp only [List.cons_append, firstMatchingRule, hp]
    exact ih (fun r' hr' => hpre r' (List.mem_cons_of_mem p hr'))

/-- C2: the rule whose handler `apply` invokes for a key is the first
registered rule (registration order) whose pattern matches the whole key,
and the handler receives the raw key, the tensor, and the captured groups
(in order); the dispatch outcome is exactly the handler's outcome. -/
theorem apply_first_match_wins (pre post : List Rule) (r : Rule) (key : String) (gs : List String)
    (hpre : ∀ r' ∈ pre, r'.pattern.fullmatch key = none)
    (hr : r.pattern.fullmatch key = some gs) :
    firstMatchingRule (pre ++ r :: post) key = some (r, gs) ∧
    ∀ v : Tensor, dispatchKey (pre ++ r :: post) key v =
      (match r.handler key v gs with
       | some res => .ok res
       | none => .error (.handlerFailure key)) := by
  have hfirst := firstMatchingRule_append post r key gs hr pre hpre
  refine ⟨hfirst, fun v => ?_⟩
  unfold dispatchKey
  rw [hfirst]
  show (match r.handler key v gs with
    | none => Except.error (TranslateError.handlerFailure key)
    | some res => Except.ok res) = _
  cases r.handler key v gs <;> rfl

/-- Witness for C2: with the ConvNeXt registry, the key
`features.0.1.weight` is not matched by the first rule and is dispatched
to the second rule (`initial_norm`) with captured group `weight`. -/
theorem apply_first_match_wins_witness :
    Regex.fullmatch pat_initial_conv "features.0.1.weight" = none ∧
    Regex.fullmatch pat_initial_norm "features.0.1.weight" = some ["weight"] ∧
    firstMatchingRule convnextRules "features.0.1.weight"
      = some (⟨pat_initial_norm, initial_norm⟩, ["weight"]) :=
  ⟨rfl, rfl,
    (apply_first_match_wins [⟨pat_initial_conv, initial_conv⟩]
      [⟨pat_layer_scale, cn_block_layer_scale⟩,
       ⟨pat_block_conv, cn_block_block_conv⟩,
       ⟨pat_block_dense, cn_block_block_dense⟩,
       ⟨pat_block_norm, cn_block_block_norm⟩,
       ⟨pat_projection_norm, block_projection_norm⟩,
       ⟨pat_projection_conv, block_projection_conv⟩,
       ⟨pat_classifier_norm, classifier_norm⟩,
       ⟨pat_classifier_dense, classifier_dense⟩]
      ⟨pat_initial_norm, initial_norm⟩ "features.0.1.weight" ["weight"]
      (by intro r' hr'; rw [List.mem_singleton] at hr'; subst hr'; rfl) rfl).1⟩

/-- The spec scenario's pattern with escaped dots,
`features\.0\.0\.(weight|bias)` (every dot literal). -/
def pat_features00_escaped : Regex := seqList [rlit "features.0.0.", grpWB]

/-- C3: an input key matching no registered pattern makes `apply` fail
(never a silent drop); in the spec scenario — only the
`features\.0\.0\.(weight|bias)` rule registered, input holding
`features.0.0.weight` (a well-formed rank-4 kernel) and `unexpected.key` —
`apply` raises the unmatched-key error naming `unexpected.key`. -/
theorem apply_unmatched_key_error :
    (∀ (rules : List Rule) (entries : List (String × Tensor)) (k : String),
        k ∈ entries.map Prod.fst → firstMatchingRule rules k = none →
        ∃ e, applyRules rules entries = .error e) ∧
    (∀ T U : Tensor, T.shape.length = 4 →
        applyRules [⟨pat_features00_escaped, initial_conv⟩]
          [("features.0.0.weight", T), ("unexpected.key", U)]
          = .error (.unmatchedKey "unexpected.key")) := by
  constructor
  · intro rules entries k hk hnone
    cases happ : applyRules rules entries with
    | error e => exact ⟨e, rfl⟩
    | ok out =>
      have := applyGo_ok_all_matched rules entries [] out happ k hk
      rw [hnone] at this
      cases this
  · intro T U h4
    obtain ⟨u, hu⟩ := npTranspose_rank_ok T [2, 3, 1, 0] (by simp [h4]) (by decide)
    have hdisp1 : dispatchKey [⟨pat_features00_escaped, initial_conv⟩] "features.0.0.weight" T
        = .ok ("stem/layers_0/kernel", u) := by
      unfold dispatchKey
      have hfm : firstMatchingRule [⟨pat_features00_escaped, initial_conv⟩] "features.0.0.weight"
          = some (⟨pat_features00_escaped, initial_conv⟩, ["weight"]) := rfl
      rw [hfm]
      have hh : initial_conv "features.0.0.weight" T ["weight"]
          = (npTranspose T [2, 3, 1, 0]).bind (fun v => some ("stem/layers_0/kernel", v)) := rfl
      show (match initial_conv "features.0.0.weight" T ["weight"] with
        | none => Except.error (TranslateError.handlerFailure "features.0.0.weight")
        | some res => Except.ok res) = _
      rw [hh, hu]
      rfl
    have hdisp2 : dispatchKey [⟨pat_features00_escaped, initial_conv⟩] "unexpected.key" U
        = .error (.unmatchedKey "unexpected.key") := rfl
    show applyGo _ [] _ = _
    simp [applyGo, hdisp1, hdisp2]

/-- Witness for C3 at a concrete rank-4 kernel tensor. -/
theorem apply_unmatched_key_error_witness :
    (Tensor.mk [1, 1, 1, 1] (fun _ => 0)).shape.length = 4 ∧
    applyRules [⟨pat_features00_escaped, initial_conv⟩]
        [("features.0.0.weight", Tensor.mk [1, 1, 1, 1] (fun _ => 0)),
         ("unexpected.key", Tensor.mk [2] (fun _ => 0))]
      = .error (.unmatchedKey "unexpected.key") :=
  ⟨rfl, apply_unmatched_key_error.2 (Tensor.mk [1, 1, 1, 1] (fun _ => 0))
    (Tensor.mk [2] (fun _ => 0)) rfl⟩

/-- C4: on success the target keys produced by one `apply` call are
pairwise distinct; and two crafted distinct source keys that the ConvNeXt
rule set sends to the same target key (`stem/layers_0/kernel`) make
`apply` fail with the duplicate-target-key error rather than silently
losing a tensor. -/
theorem apply_duplicate_target_key :
    (∀ (rules : List Rule) (entries out : List (String × Tensor)),
        applyRules rules entries = .ok out → (out.map Prod.fst).Nodup) ∧
    applyRules convnextRules
        [("features.0.0.weight", Tensor.mk [1, 1, 1, 1] (fun _ => 0)),
         ("featuresX0Y0Zweight", Tensor.mk [1, 1, 1, 1] (fun _ => 1))]
      = .error (.duplicateTargetKey "stem/layers_0/kernel") :=
  ⟨fun rules entries out h => applyGo_ok_nodup rules entries [] out h (by simp), rfl⟩

/-- Witness for C4's universal part on a concrete successful `apply`. -/
theorem apply_duplicate_target_key_witness :
    applyRules convnextRules [("classifier.0.bias", Tensor.mk [7] (fun _ => 0))]
      = .ok [("classifier/layers_0/bias", Tensor.mk [7] (fun _ => 0))] ∧
    (List.map Prod.fst
      [("classifier/layers_0/bias", Tensor.mk [7] (fun _ => 0))]).Nodup :=
  ⟨rfl, apply_duplicate_target_key.1 convnextRules
    [("classifier.0.bias", Tensor.mk [7] (fun _ => 0))]
    [("classifier/layers_0/bias", Tensor.mk [7] (fun _ => 0))] rfl⟩

/-- The expected tree of the spec's reassembly scenario. -/
def scenarioTree (U1 U2 U3 : Tensor) : Ptree :=
  .node [("a", .node [("b", .node [("c", .leaf U1), ("d", .leaf U2)]), ("e", .leaf U3)])]

/-- C5: `unflatten` splits every key on the separator, creates nested
mappings for all but the last segment, and assigns the tensor at the
last segment: the mapping with keys `a/b/c`, `a/b/d`, `a/e` reassembles
to the nested tree of the scenario; and each of the six iteration orders
of that mapping yields the same tree as a nested mapping (equal
canonical forms — dict equality ignores insertion order). -/
theorem unflatten_scenario_order_independent (U1 U2 U3 : Tensor) :
    unflatten [("a/b/c", U1), ("a/b/d", U2), ("a/e", U3)] '/' = .ok (scenarioTree U1 U2 U3) ∧
    (unflatten [("a/b/c", U1), ("a/b/d", U2), ("a/e", U3)] '/').map Ptree.canon
      = .ok ((scenarioTree U1 U2 U3).canon) ∧
    (unflatten [("a/b/c", U1), ("a/e", U3), ("a/b/d", U2)] '/').map Ptree.canon
      = .ok ((scenarioTree U1 U2 U3).canon) ∧
    (unflatten [("a/b/d", U2), ("a/b/c", U1), ("a/e", U3)] '/').map Ptree.canon
      = .ok ((scenarioTree U1 U2 U3).canon) ∧
    (unflatten [("a/b/d", U2), ("a/e", U3), ("a/b/c", U1)] '/').map Ptree.canon
      = .ok ((scenarioTree U1 U2 U3).canon) ∧
    (unflatten [("a/e", U3), ("a/b/c", U1), ("a/b/d", U2)] '/').map Ptree.canon
      = .ok ((scenarioTree U1 U2 U3).canon) ∧
    (unflatten [("a/e", U3), ("a/b/d", U2), ("a/b/c", U1)] '/').map Ptree.canon
      = .ok ((scenarioTree U1 U2 U3).canon) :=
  ⟨rfl, rfl, rfl, rfl, rfl, rfl, rfl⟩

/-- C10: whatever the input state dict, a successful
`load_from_torch_checkpoint` returns a mapping with exactly one top-level
key, `params`, whose value is the ParameterTree reassembled from the
translated entries — never the bare tree itself. -/
theorem load_from_torch_checkpoint_wraps_params (sd : List (String × Tensor)) (r : Ptree)
    (h : load_from_torch_checkpoint sd = .ok r) :
    ∃ out tree, applyRules convnextRules sd = .ok out ∧ unflatten out '/' = .ok tree ∧
      r = .node [("params", tree)] := by
  unfold load_from_torch_checkpoint at h
  cases happ : applyRules convnextRules sd with
  | error e => rw [happ] at h; cases h
  | ok out =>
    simp only [happ] at h
    cases hun : unflatten out '/' with
    | error e => simp only [hun] at h; cases h
    | ok tree =>
      simp only [hun] at h
      cases h
      exact ⟨out, tree, rfl, hun, rfl⟩

/-- Witness for C10 on a concrete one-entry state dict. -/
theorem load_from_torch_checkpoint_wraps_params_witness :
    load_from_torch_checkpoint [("features.0.1.weight", Tensor.mk [9] (fun _ => 0))]
      = .ok (.node [("params", .node [("stem", .node [("layers_1", .node [("scale",
          .leaf (Tensor.mk [9] (fun _ => 0)))])])])]) ∧
    (∃ out tree,
      applyRules convnextRules [("features.0.1.weight", Tensor.mk [9] (fun _ => 0))] = .ok out ∧
      unflatten out '/' = .ok tree ∧
      (Ptree.node [("params", .node [("stem", .node [("layers_1", .node [("scale",
          .leaf (Tensor.mk [9] (fun _ => 0)))])])])]) = .node [("params", tree)]) :=
  ⟨rfl, load_from_torch_checkpoint_wraps_params
    [("features.0.1.weight", Tensor.mk [9] (fun _ => 0))]
    (.node [("params", .node [("stem", .node [("layers_1", .node [("scale",
      .leaf (Tensor.mk [9] (fun _ => 0)))])])])]) rfl⟩
